import Mathlib

/-!
Verification of the Offer-analysis chart engine.

The definitions below are a shallow embedding of the repository's core:
`src/utils/median.ts`, the domain logic of `src/App.tsx`
(`getInitialDomain`, `checkAndExpandDomain`, `handleUserOfferDrag`,
`filteredOffers`) and the chart logic of `src/components/ScatterPlot.tsx`
(`getChartGeometry`, `handleDrag`, the throttle helper, the drag-end
handler, the age color scale and the main chart update effect).
JavaScript numbers are modelled as rationals (ℚ); the d3 linear scale is
embedded by its actual normalize/interpolate semantics, including the
degenerate-interval case where d3 uses the constant parameter 1/2.
-/

namespace OfferAnalysis

/-- Market offer record (src/types/index.ts, LoanOffer): `id` is optional,
`loanAmount` and `interestRate` are numbers; `duration` and `timestamp`
are optional numbers. -/
structure LoanOffer where
  id : Option String
  loanAmount : ℚ
  interestRate : ℚ
  duration : Option ℚ
  timestamp : Option ℚ
deriving Repr, DecidableEq

/-- Two-axis domain as passed to the chart (App.tsx `domain` state):
`x = (xMin, xMax)`, `y = (yMin, yMax)`. -/
structure Domain where
  x : ℚ × ℚ
  y : ℚ × ℚ
deriving Repr, DecidableEq

/-- Truthiness of the `id` field, as used by `.filter(offer => offer.id)`
in App.tsx: present and not the empty string. -/
def hasId (o : LoanOffer) : Bool :=
  match o.id with
  | none => false
  | some s => s ≠ ""

/-- App.tsx `filteredOffers` (lines 107-118): filter by the user's duration
when it is set, then drop every offer whose `id` is falsy. When the user
duration is set, `Number(offer.duration) === Number(userOffer.duration)`
is NaN on an absent offer duration and so always false: such offers are
dropped. -/
def filteredOffers (userDuration : Option ℚ) (offers : List LoanOffer) : List LoanOffer :=
  (match userDuration with
   | none => offers
   | some d => offers.filter (fun o =>
       match o.duration with
       | none => false
       | some x => x = d)).filter hasId

/-- Median of a list of numbers with d3.median semantics: sort ascending,
take the middle element for odd length and the mean of the two middle
elements for even length; `none` on the empty list. -/
def d3Median (xs : List ℚ) : Option ℚ :=
  let s := xs.insertionSort (· ≤ ·)
  let n := s.length
  if n = 0 then none
  else if n % 2 = 1 then some (s.getD (n / 2) 0)
  else some ((s.getD (n / 2 - 1) 0 + s.getD (n / 2) 0) / 2)

/-- src/utils/median.ts `getMarketMedians`: `d3.median(...) || 0` on each
axis (the `|| 0` turns the empty-list `undefined` into 0; on rationals a
falsy 0 median is already 0, so `Option.getD 0` is exact). -/
def getMarketMedians (offers : List LoanOffer) : ℚ × ℚ :=
  ((d3Median (offers.map LoanOffer.loanAmount)).getD 0,
   (d3Median (offers.map LoanOffer.interestRate)).getD 0)

/-- d3 normalize(a, b): the interpolation parameter of x between a and b;
when the interval is degenerate d3 returns the constant 1/2. -/
def d3Normalize (a b x : ℚ) : ℚ :=
  if b - a = 0 then 1 / 2 else (x - a) / (b - a)

/-- Linear interpolation between a and b at parameter t
(d3 interpolateNumber). -/
def d3Lerp (a b t : ℚ) : ℚ :=
  a * (1 - t) + b * t

/-- Forward application of `d3.scaleLinear().domain([d0, d1]).range([r0, r1])`:
normalize over the domain, interpolate over the range. -/
def scaleLinearApply (d0 d1 r0 r1 x : ℚ) : ℚ :=
  d3Lerp r0 r1 (d3Normalize d0 d1 x)

/-- The `invert` of the same d3 linear scale: normalize over the range,
interpolate over the domain. -/
def scaleLinearInvert (d0 d1 r0 r1 y : ℚ) : ℚ :=
  d3Lerp d0 d1 (d3Normalize r0 r1 y)

/-- Chart surface size (ScatterPlot `chartSize`, from the container box). -/
structure ChartSize where
  width : ℚ
  height : ℚ
deriving Repr, DecidableEq

/-- Inner plot geometry of ScatterPlot.tsx `getChartGeometry` (lines
303-315): margins are top 20, right 20, bottom 60, left 60, so the inner
width is `chartSize.width - 80` and the inner height `chartSize.height - 80`. -/
def innerWidth (cs : ChartSize) : ℚ := cs.width - 60 - 20

/-- Inner plot height from `getChartGeometry`. -/
def innerHeight (cs : ChartSize) : ℚ := cs.height - 20 - 60

/-- The x scale of `getChartGeometry`: domain `[xMin, xMax]`, range
`[0, width]`. -/
def toPixelX (dom : Domain) (w p : ℚ) : ℚ :=
  scaleLinearApply dom.x.1 dom.x.2 0 w p

/-- Inverse of the x scale. -/
def fromPixelX (dom : Domain) (w px : ℚ) : ℚ :=
  scaleLinearInvert dom.x.1 dom.x.2 0 w px

/-- The y scale of `getChartGeometry`: domain `[yMin, yMax]`, range
`[height, 0]` (rate axis inverted). -/
def toPixelY (dom : Domain) (h r : ℚ) : ℚ :=
  scaleLinearApply dom.y.1 dom.y.2 h 0 r

/-- Inverse of the y scale. -/
def fromPixelY (dom : Domain) (h py : ℚ) : ℚ :=
  scaleLinearInvert dom.y.1 dom.y.2 h 0 py

/-- Outbound payload of `onUserOfferDrag` (ScatterPlot props, line 16). -/
structure DragUpdate where
  loanAmount : ℚ
  interestRate : ℚ
  dragX : Option ℚ
  dragY : Option ℚ
  width : Option ℚ
  height : Option ℚ
  dragging : Option Bool
deriving Repr, DecidableEq

/-- Data-space position computed by ScatterPlot.tsx `handleDrag` (lines
201-221): rebuild both scales from the current domain and the svg client
box (margins subtracted), invert the pointer position, then clamp each
coordinate to the domain (`Math.max(min, Math.min(max, v))`). Returns the
pair stored in `lastDataPosRef` (clampedX, clampedY). -/
def handleDragData (dom : Domain) (clientW clientH ex ey : ℚ) : ℚ × ℚ :=
  let w := clientW - 60 - 20
  let h := clientH - 20 - 60
  let newDataX := scaleLinearInvert dom.x.1 dom.x.2 0 w ex
  let newDataY := scaleLinearInvert dom.y.1 dom.y.2 h 0 ey
  (max dom.x.1 (min dom.x.2 newDataX), max dom.y.1 (min dom.y.2 newDataY))

/-- The unclamped inverted pointer position of `handleDrag`
(`newDataX`, `newDataY` before the clamp at lines 217-218). -/
def handleDragRawData (dom : Domain) (clientW clientH ex ey : ℚ) : ℚ × ℚ :=
  let w := clientW - 60 - 20
  let h := clientH - 20 - 60
  (scaleLinearInvert dom.x.1 dom.x.2 0 w ex,
   scaleLinearInvert dom.y.1 dom.y.2 h 0 ey)

/-- The live update passed to `onUserOfferDrag` inside `throttledExpand`
(ScatterPlot lines 239-251): the clamped data values plus the pointer
pixel position, plot size and `dragging: true`. -/
def handleDragLiveUpdate (dom : Domain) (clientW clientH ex ey : ℚ) : DragUpdate :=
  let p := handleDragData dom clientW clientH ex ey
  { loanAmount := p.1, interestRate := p.2
    dragX := some ex, dragY := some ey
    width := some (clientW - 60 - 20), height := some (clientH - 20 - 60)
    dragging := some true }

/-- The committed update emitted by the drag `end` handler (ScatterPlot
lines 270-283): the values of `lastDataPosRef` when one is stored, else
the user offer's own values; no pixel fields, no `dragging` flag. -/
def dragEndUpdate (lastDataPos : Option (ℚ × ℚ)) (userLoan userRate : ℚ) : DragUpdate :=
  let p := lastDataPos.getD (userLoan, userRate)
  { loanAmount := p.1, interestRate := p.2
    dragX := none, dragY := none, width := none, height := none, dragging := none }

/-- State of the throttle in ScatterPlot: whether `throttleTimeoutRef`
holds a pending timeout, how many live emissions have been scheduled and
how many committed updates have been sent. -/
structure NotifyState where
  pending : Bool
  liveScheduled : ℕ
  committed : ℕ
deriving Repr, DecidableEq

/-- ScatterPlot `throttledExpand` (lines 170-176): if a timeout is already
pending the call is dropped; otherwise one emission is scheduled (it will
fire 100 ms later and clear the flag). Within a single throttle interval
the timeout never fires, so the flag stays set once set. -/
def throttledExpand (s : NotifyState) : NotifyState :=
  if s.pending then s
  else { s with pending := true, liveScheduled := s.liveScheduled + 1 }

/-- One pointer-move inside a single throttle interval: `handleDrag` runs
and calls `throttledExpand` with the live-update emission. -/
def moveEvent (s : NotifyState) : NotifyState :=
  throttledExpand s

/-- A sequence of n pointer-moves inside one throttle interval. -/
def moveEvents : ℕ → NotifyState → NotifyState
  | 0, s => s
  | n + 1, s => moveEvents n (moveEvent s)

/-- The drag `end` handler calls `onUserOfferDrag` directly (line 275),
without consulting the throttle state. -/
def dragEndEvent (s : NotifyState) : NotifyState :=
  { s with committed := s.committed + 1 }

/-- App.tsx `getInitialDomain` (lines 36-75): padded min/max over the
offers plus the user offer (0 when absent), with a ±1 rate buffer when all
rates are equal, floor ranges (0.1 for loans, 2 for rates), 10% padding on
each side and lower bounds clamped at 0. -/
def getInitialDomain (offers : List LoanOffer) (userOffer : Option (ℚ × ℚ)) : Domain :=
  if offers.isEmpty ∧ userOffer = none then ⟨(0, 1), (0, 5)⟩
  else
    let uLoan := (userOffer.map Prod.fst).getD 0
    let uRate := (userOffer.map Prod.snd).getD 0
    let minLoan := (offers.map LoanOffer.loanAmount).foldr min uLoan
    let maxLoan := (offers.map LoanOffer.loanAmount).foldr max uLoan
    let minRate := (offers.map LoanOffer.interestRate).foldr min uRate
    let maxRate := (offers.map LoanOffer.interestRate).foldr max uRate
    let loanRange := maxLoan - minLoan
    let yMin := if minRate = maxRate then minRate - 1 else minRate
    let yMax := if minRate = maxRate then maxRate + 1 else maxRate
    let rateRange := yMax - yMin
    let minLoanRange := max loanRange (1 / 10)
    let minRateRange := max rateRange 2
    ⟨(max 0 (minLoan - minLoanRange * (1 / 10)), maxLoan + minLoanRange * (1 / 10)),
     (max 0 (yMin - minRateRange * (1 / 10)), yMax + minRateRange * (1 / 10))⟩

/-- The drag position stored in App.tsx `dragPosRef`: last pointer pixel
position and the plot size reported by the chart. -/
structure DragPos where
  x : ℚ
  y : ℚ
  width : ℚ
  height : ℚ
deriving Repr, DecidableEq

/-- App.tsx PIXEL_INCREMENT (line 19). -/
def PIXEL_INCREMENT : ℚ := 1

/-- App.tsx EDGE_THRESHOLD (line 26). -/
def EDGE_THRESHOLD : ℚ := 1 / 100

/-- Data-units-per-pixel increment on the x axis (App.tsx lines 173-175):
`xRange / (width || 1) * PIXEL_INCREMENT`. -/
def xIncrementOf (prev : Domain) (pos : DragPos) : ℚ :=
  (prev.x.2 - prev.x.1) / (if pos.width = 0 then 1 else pos.width) * PIXEL_INCREMENT

/-- Data-units-per-pixel increment on the y axis (App.tsx lines 174-176). -/
def yIncrementOf (prev : Domain) (pos : DragPos) : ℚ :=
  (prev.y.2 - prev.y.1) / (if pos.height = 0 then 1 else pos.height) * PIXEL_INCREMENT

/-- Edge test for the right edge (App.tsx line 178):
`x >= width * (1 - EDGE_THRESHOLD)`. -/
def edgeRight (pos : DragPos) : Prop := pos.width * (1 - EDGE_THRESHOLD) ≤ pos.x

/-- Edge test for the left edge (App.tsx line 183): `x <= width * EDGE_THRESHOLD`. -/
def edgeLeft (pos : DragPos) : Prop := pos.x ≤ pos.width * EDGE_THRESHOLD

/-- Edge test for the top edge (App.tsx line 188): `y <= height * EDGE_THRESHOLD`. -/
def edgeTop (pos : DragPos) : Prop := pos.y ≤ pos.height * EDGE_THRESHOLD

/-- Edge test for the bottom edge (App.tsx line 193):
`y >= height * (1 - EDGE_THRESHOLD)`. -/
def edgeBottom (pos : DragPos) : Prop := pos.height * (1 - EDGE_THRESHOLD) ≤ pos.y

instance (pos : DragPos) : Decidable (edgeRight pos) := by
  unfold edgeRight
  infer_instance

instance (pos : DragPos) : Decidable (edgeLeft pos) := by
  unfold edgeLeft
  infer_instance

instance (pos : DragPos) : Decidable (edgeTop pos) := by
  unfold edgeTop
  infer_instance

instance (pos : DragPos) : Decidable (edgeBottom pos) := by
  unfold edgeBottom
  infer_instance

/-- Updated xMax after the right-edge check (App.tsx lines 178-181). -/
def xMax1Of (prev : Domain) (pos : DragPos) : ℚ :=
  if edgeRight pos then prev.x.2 + xIncrementOf prev pos else prev.x.2

/-- Updated xMin after the left-edge check, clamped at 0 (App.tsx lines
183-186). -/
def xMin1Of (prev : Domain) (pos : DragPos) : ℚ :=
  if edgeLeft pos then max 0 (prev.x.1 - xIncrementOf prev pos) else prev.x.1

/-- Updated yMax after the top-edge check (App.tsx lines 188-191). -/
def yMax1Of (prev : Domain) (pos : DragPos) : ℚ :=
  if edgeTop pos then prev.y.2 + yIncrementOf prev pos else prev.y.2

/-- Updated yMin after the bottom-edge check, clamped at 0 (App.tsx lines
193-196). -/
def yMin1Of (prev : Domain) (pos : DragPos) : ℚ :=
  if edgeBottom pos then max 0 (prev.y.1 - yIncrementOf prev pos) else prev.y.1

/-- Minimum-range maintenance (App.tsx lines 198-210): when the updated
range fell below the floor, re-center the bounds around the midpoint with
exactly the floor width. -/
def fixRange (lo hi floor : ℚ) : ℚ × ℚ :=
  if hi - lo < floor then ((hi + lo) / 2 - floor / 2, (hi + lo) / 2 + floor / 2)
  else (lo, hi)

/-- App.tsx `checkAndExpandDomain` (lines 163-215): when the stored drag
pixel is within EDGE_THRESHOLD of an edge (`changed`), push the triggered
bounds outward by one pixel's worth of data with lower bounds clamped at
0, then apply the minimum-range maintenance with floor 0.1 of the
pre-step range on each axis; return the previous domain unchanged when no
edge triggered. -/
def checkAndExpandDomain (prev : Domain) (pos : DragPos) : Domain :=
  if edgeRight pos ∨ edgeLeft pos ∨ edgeTop pos ∨ edgeBottom pos then
    ⟨fixRange (xMin1Of prev pos) (xMax1Of prev pos) ((prev.x.2 - prev.x.1) * (1 / 10)),
     fixRange (yMin1Of prev pos) (yMax1Of prev pos) ((prev.y.2 - prev.y.1) * (1 / 10))⟩
  else prev

/-- The user-offer view-model state owned by App.tsx that
`handleUserOfferDrag` writes: stored values plus drag bookkeeping. -/
structure AppDragState where
  userLoan : ℚ
  userRate : ℚ
  dragActive : Bool
  dragPos : Option DragPos
deriving Repr, DecidableEq

/-- App.tsx `handleUserOfferDrag` (lines 231-253): in both the live and the
committed branch the stored values are `Math.max(0, loanAmount)` and
`Math.max(0, interestRate)`; the live branch (dragging with all pixel
fields present) also records the drag position and keeps the expansion
interval running, the other branch clears it. -/
def handleUserOfferDrag (s : AppDragState) (u : DragUpdate) : AppDragState :=
  if u.dragging = some true ∧ u.dragX.isSome ∧ u.dragY.isSome ∧
      u.width.isSome ∧ u.height.isSome then
    { s with
      userLoan := max 0 u.loanAmount, userRate := max 0 u.interestRate
      dragActive := true
      dragPos := some ⟨u.dragX.getD 0, u.dragY.getD 0, u.width.getD 0, u.height.getD 0⟩ }
  else
    { s with
      userLoan := max 0 u.loanAmount, userRate := max 0 u.interestRate
      dragActive := false, dragPos := none }

/-- Timestamps of the offer set as read by the age color scale
(ScatterPlot line 513): `d.timestamp ?? 0`. -/
def offerTimestamps (data : List LoanOffer) : List ℚ :=
  data.map (fun d => d.timestamp.getD 0)

/-- ScatterPlot line 514: `d3.min(timestamps) ?? 0`. -/
def minTimestampOf (data : List LoanOffer) : ℚ :=
  match offerTimestamps data with
  | [] => 0
  | t :: ts => ts.foldr min t

/-- ScatterPlot line 515: `d3.max(timestamps) ?? 0`. -/
def maxTimestampOf (data : List LoanOffer) : ℚ :=
  match offerTimestamps data with
  | [] => 0
  | t :: ts => ts.foldr max t

/-- Interpolation parameter of the `timeScale` linear color scale
(ScatterPlot lines 516-518) at timestamp ts: d3 normalize over
`[minTimestamp, maxTimestamp]`, the constant 1/2 when the domain is
degenerate. Parameter 0 selects the oldest color, 1 the newest. -/
def timeParam (data : List LoanOffer) (ts : ℚ) : ℚ :=
  d3Normalize (minTimestampOf data) (maxTimestampOf data) ts

/-- What the main chart update effect draws for one frame. -/
structure ChartRender where
  marks : List (ℚ × ℚ)
  medianLineX : Option ℚ
  medianLineY : Option ℚ
deriving Repr, DecidableEq

/-- Main chart update effect of ScatterPlot.tsx (lines 376-652), reduced to
its geometric output: skip the frame entirely when the inner plot size is
degenerate (line 379); with no data clear all marks and draw nothing else
(lines 391-395); otherwise place one mark per offer and the two median
reference lines. -/
def mainChartRender (dom : Domain) (cs : ChartSize) (data : List LoanOffer) :
    Option ChartRender :=
  let w := innerWidth cs
  let h := innerHeight cs
  if w ≤ 0 ∨ h ≤ 0 then none
  else if data.length = 0 then some ⟨[], none, none⟩
  else
    let m := getMarketMedians data
    some ⟨data.map (fun d => (toPixelX dom w d.loanAmount, toPixelY dom h d.interestRate)),
          some (toPixelX dom w m.1), some (toPixelY dom h m.2)⟩

/-! Helper lemmas about `List.foldr min` / `List.foldr max`, used for the
domain-construction and color-scale bounds. -/

theorem foldr_min_le_init (l : List ℚ) (a : ℚ) : l.foldr min a ≤ a := by
  induction l with
  | nil => exact le_refl a
  | cons x xs ih => exact le_trans (min_le_right x (xs.foldr min a)) ih

theorem init_le_foldr_max (l : List ℚ) (a : ℚ) : a ≤ l.foldr max a := by
  induction l with
  | nil => exact le_refl a
  | cons x xs ih => exact le_trans ih (le_max_right x (xs.foldr max a))

theorem foldr_min_le_mem (l : List ℚ) (a x : ℚ) (hx : x ∈ l) : l.foldr min a ≤ x := by
  induction l with
  | nil => cases hx
  | cons y ys ih =>
      rcases List.mem_cons.mp hx with h | h
      · subst h; exact min_le_left x (ys.foldr min a)
      · exact le_trans (min_le_right y (ys.foldr min a)) (ih h)

theorem mem_le_foldr_max (l : List ℚ) (a x : ℚ) (hx : x ∈ l) : x ≤ l.foldr max a := by
  induction l with
  | nil => cases hx
  | cons y ys ih =>
      rcases List.mem_cons.mp hx with h | h
      · subst h; exact le_max_left x (ys.foldr max a)
      · exact le_trans (ih h) (le_max_right y (ys.foldr max a))

theorem le_foldr_min (l : List ℚ) (a c : ℚ) (hl : ∀ x ∈ l, c ≤ x) (ha : c ≤ a) :
    c ≤ l.foldr min a := by
  induction l with
  | nil => exact ha
  | cons y ys ih =>
      exact le_min (hl y (List.mem_cons_self y ys))
        (ih fun x hx => hl x (List.mem_cons_of_mem y hx))

theorem foldr_max_le (l : List ℚ) (a c : ℚ) (hl : ∀ x ∈ l, x ≤ c) (ha : a ≤ c) :
    l.foldr max a ≤ c := by
  induction l with
  | nil => exact ha
  | cons y ys ih =>
      exact max_le (hl y (List.mem_cons_self y ys))
        (ih fun x hx => hl x (List.mem_cons_of_mem y hx))

theorem foldr_min_le_foldr_max (l : List ℚ) (a : ℚ) :
    l.foldr min a ≤ l.foldr max a :=
  le_trans (foldr_min_le_init l a) (init_le_foldr_max l a)

/-! Helper lemma for the throttle machine: once a timeout is pending,
further pointer-moves inside the same interval change nothing. -/

theorem moveEvents_of_pending :
    ∀ (n : ℕ) (s : NotifyState), s.pending = true → moveEvents n s = s
  | 0, _, _ => rfl
  | n + 1, s, h => by
      have hm : moveEvent s = s := by
        simp [moveEvent, throttledExpand, h]
      rw [moveEvents, hm, moveEvents_of_pending n s h]

/-- Claim C1 counterexample: with domain x ∈ [0, 1], y ∈ [0, 5] and a
180×180 client box (plot 100×100), the pointer at pixel (200, 50) inverts
to the out-of-domain principal 2, yet both the live update and the
committed update deliver the domain edge 1, not 2: the outbound value is
clamped, contrary to the claim. -/
theorem claim_C1_counterexample :
    (handleDragRawData ⟨(0, 1), (0, 5)⟩ 180 180 200 50).1 = 2 ∧
    (1 : ℚ) < 2 ∧
    (handleDragLiveUpdate ⟨(0, 1), (0, 5)⟩ 180 180 200 50).loanAmount = 1 ∧
    (dragEndUpdate (some (handleDragData ⟨(0, 1), (0, 5)⟩ 180 180 200 50)) 0 0).loanAmount
      = 1 ∧
    (1 : ℚ) ≠ 2 := by
  refine ⟨?_, by norm_num, ?_, ?_, by norm_num⟩
  · norm_num [handleDragRawData, scaleLinearInvert, d3Lerp, d3Normalize]
  · norm_num [handleDragLiveUpdate, handleDragData, scaleLinearInvert, d3Lerp,
      d3Normalize, min_def, max_def]
  · norm_num [dragEndUpdate, handleDragData, scaleLinearInvert, d3Lerp,
      d3Normalize, min_def, max_def]

/-- Claim C1 (amended): for every pointer-move during a drag, the outbound
live update and the final committed update carry the inverted data-space
value clamped to the current domain ranges (`handleDrag` clamps before
storing and emitting, and the drag-end handler re-emits the stored
clamped pair). -/
theorem claim_C1_clamped_propagation (dom : Domain) (cw ch ex ey uL uR : ℚ) :
    (handleDragLiveUpdate dom cw ch ex ey).loanAmount
      = max dom.x.1 (min dom.x.2 (handleDragRawData dom cw ch ex ey).1) ∧
    (handleDragLiveUpdate dom cw ch ex ey).interestRate
      = max dom.y.1 (min dom.y.2 (handleDragRawData dom cw ch ex ey).2) ∧
    (dragEndUpdate (some (handleDragData dom cw ch ex ey)) uL uR).loanAmount
      = (handleDragLiveUpdate dom cw ch ex ey).loanAmount ∧
    (dragEndUpdate (some (handleDragData dom cw ch ex ey)) uL uR).interestRate
      = (handleDragLiveUpdate dom cw ch ex ey).interestRate :=
  ⟨rfl, rfl, rfl, rfl⟩

/-- Claim C2: every offer surviving the chart's input filter has a truthy
id, and on the concrete input with market offers (id "a", 1, 5) and
(id "b", 3, 7) plus an id-less user offer (100, 50) in the same list, the
computed medians are principal 2 and rate 6 — the id-less record is
excluded. -/
theorem claim_C2_median_exclusion :
    (∀ (dur : Option ℚ) (offers : List LoanOffer) (o : LoanOffer),
        o ∈ filteredOffers dur offers → hasId o = true) ∧
    getMarketMedians (filteredOffers none
      [⟨some "a", 1, 5, none, none⟩, ⟨some "b", 3, 7, none, none⟩,
       ⟨none, 100, 50, none, none⟩]) = (2, 6) := by
  constructor
  · intro dur offers o ho
    unfold filteredOffers at ho
    exact (List.mem_filter.mp ho).2
  · norm_num [getMarketMedians, d3Median, filteredOffers, hasId, List.filter,
      List.insertionSort, List.orderedInsert]

/-- Witness for claim C2 at a concrete member of the filtered list. -/
theorem claim_C2_median_exclusion_witness :
    hasId ⟨some "a", (1 : ℚ), 5, none, none⟩ = true ∧
    getMarketMedians (filteredOffers none
      [⟨some "a", 1, 5, none, none⟩, ⟨some "b", 3, 7, none, none⟩,
       ⟨none, 100, 50, none, none⟩]) = (2, 6) :=
  ⟨claim_C2_median_exclusion.1 none [⟨some "a", 1, 5, none, none⟩]
      ⟨some "a", 1, 5, none, none⟩ (by decide),
   claim_C2_median_exclusion.2⟩

/-- Claim C3: from any throttle state, 100 pointer-moves inside a single
throttle interval schedule at most one live notification, while the
drag-end handler always emits exactly one committed notification,
regardless of the throttle state. -/
theorem claim_C3_throttle_bound (s : NotifyState) :
    (moveEvents 100 s).liveScheduled ≤ s.liveScheduled + 1 ∧
    (dragEndEvent s).committed = s.committed + 1 := by
  constructor
  · cases hp : s.pending
    · have h1 : moveEvents 100 s = moveEvents 99 (moveEvent s) := rfl
      have hm : moveEvent s =
          { s with pending := true, liveScheduled := s.liveScheduled + 1 } := by
        simp [moveEvent, throttledExpand, hp]
      rw [h1, hm, moveEvents_of_pending 99 _ rfl]
    · rw [moveEvents_of_pending 100 s hp]
      exact Nat.le_succ _
  · rfl

/-- Claim C9: the reference-statistics computation returns zero medians on
the empty offer list, and the main chart update effect on an empty list
with a valid plot size renders no per-offer marks and no reference lines
(and, being a total function, does not throw). -/
theorem claim_C9_empty_set_safety (dom : Domain) (cs : ChartSize)
    (hw : 0 < innerWidth cs) (hh : 0 < innerHeight cs) :
    getMarketMedians [] = (0, 0) ∧
    mainChartRender dom cs [] = some ⟨[], none, none⟩ := by
  refine ⟨rfl, ?_⟩
  have hcond : ¬(innerWidth cs ≤ 0 ∨ innerHeight cs ≤ 0) := by
    push_neg
    exact ⟨hw, hh⟩
  simp [mainChartRender, hcond]

/-- Witness for claim C9 at a 200×200 surface. -/
theorem claim_C9_empty_set_safety_witness :
    getMarketMedians [] = (0, 0) ∧
    mainChartRender ⟨(0, 1), (0, 5)⟩ ⟨200, 200⟩ [] = some ⟨[], none, none⟩ :=
  claim_C9_empty_set_safety ⟨(0, 1), (0, 5)⟩ ⟨200, 200⟩
    (by norm_num [innerWidth]) (by norm_num [innerHeight])

/-- Claim C10: for every drag update received by the owner, live or
committed, the stored user-offer values are exactly `max 0 loanAmount` and
`max 0 interestRate`, hence never negative. -/
theorem claim_C10_owner_floors_at_zero (s : AppDragState) (u : DragUpdate) :
    (handleUserOfferDrag s u).userLoan = max 0 u.loanAmount ∧
    (handleUserOfferDrag s u).userRate = max 0 u.interestRate ∧
    0 ≤ (handleUserOfferDrag s u).userLoan ∧
    0 ≤ (handleUserOfferDrag s u).userRate := by
  unfold handleUserOfferDrag
  split_ifs <;> exact ⟨rfl, rfl, le_max_left _ _, le_max_left _ _⟩

/-- Claim C5: with the x scale at 2 pixels per data unit, an anchor pixel
(50, 50) that inverts to data (10, 5), and (15, 5) inside the current
domain, moving the pointer to pixel (60, 50) makes `handleDrag` store and
report principal 10 + 10/2 = 15 with the rate unchanged; the scales are
rebuilt from the current domain on this move. -/
theorem claim_C5_drag_delta (dom : Domain) (cw ch : ℚ)
    (hscale : cw - 60 - 20 = 2 * (dom.x.2 - dom.x.1))
    (hxlt : dom.x.1 < dom.x.2)
    (hanchor : handleDragRawData dom cw ch 50 50 = (10, 5))
    (hx15a : dom.x.1 ≤ 15) (hx15b : (15 : ℚ) ≤ dom.x.2)
    (hy5a : dom.y.1 ≤ 5) (hy5b : (5 : ℚ) ≤ dom.y.2) :
    handleDragData dom cw ch 60 50 = (15, 5) := by
  have hR : dom.x.2 - dom.x.1 ≠ 0 := sub_ne_zero.mpr (ne_of_gt hxlt)
  have hw : cw - 60 - 20 ≠ 0 := by
    rw [hscale]
    exact mul_ne_zero two_ne_zero hR
  have h1 : scaleLinearInvert dom.x.1 dom.x.2 0 (cw - 60 - 20) 50 = 10 := by
    have := congrArg Prod.fst hanchor
    simpa [handleDragRawData] using this
  have h2 : scaleLinearInvert dom.y.1 dom.y.2 (ch - 20 - 60) 0 50 = 5 := by
    have := congrArg Prod.snd hanchor
    simpa [handleDragRawData] using this
  have hw0 : cw - 60 - 20 - 0 ≠ 0 := by simpa using hw
  have h60 : scaleLinearInvert dom.x.1 dom.x.2 0 (cw - 60 - 20) 60 = 15 := by
    rw [scaleLinearInvert, d3Lerp, d3Normalize, if_neg hw0] at h1 ⊢
    field_simp at h1 ⊢
    nlinarith [h1, hscale, hR]
  show (max dom.x.1 (min dom.x.2 (scaleLinearInvert dom.x.1 dom.x.2 0 (cw - 60 - 20) 60)),
        max dom.y.1 (min dom.y.2 (scaleLinearInvert dom.y.1 dom.y.2 (ch - 20 - 60) 0 50)))
      = (15, 5)
  rw [h60, h2, min_eq_right hx15b, max_eq_right hx15a,
    min_eq_right hy5b, max_eq_right hy5a]

/-- Witness for claim C5: domain x ∈ [-15, 35], y ∈ [0, 10], client box
180×180 (plot 100×100, so 100 px over 50 data units = 2 px per unit). -/
theorem claim_C5_drag_delta_witness :
    handleDragData ⟨(-15, 35), (0, 10)⟩ 180 180 60 50 = (15, 5) :=
  claim_C5_drag_delta ⟨(-15, 35), (0, 10)⟩ 180 180
    (by norm_num) (by norm_num)
    (by norm_num [handleDragRawData, scaleLinearInvert, d3Lerp, d3Normalize])
    (by norm_num) (by norm_num) (by norm_num) (by norm_num)

/-- Claim C7 counterexample: the surface 80×180 has positive width and
height, yet its inner plot width is 0, and the round trip through the
mapper sends the in-domain principal 1/4 to 1/2 (d3's degenerate-interval
parameter), so invertibility fails for a surface that merely has positive
width and height. -/
theorem claim_C7_counterexample :
    (0 : ℚ) < 80 ∧ (0 : ℚ) < 180 ∧
    (0 : ℚ) ≤ 1 / 4 ∧ (1 / 4 : ℚ) ≤ 1 ∧
    fromPixelX ⟨(0, 1), (0, 5)⟩ (innerWidth ⟨80, 180⟩)
        (toPixelX ⟨(0, 1), (0, 5)⟩ (innerWidth ⟨80, 180⟩) (1 / 4)) ≠ 1 / 4 := by
  norm_num [fromPixelX, toPixelX, scaleLinearApply, scaleLinearInvert,
    d3Lerp, d3Normalize, innerWidth]

/-- Claim C7 (amended): for every domain with min < max on both axes and
every surface whose inner plot area is positive (surface width > 80 and
height > 80 after margins), the mapper is an exact linear bijection:
`fromPixelX ∘ toPixelX` and `fromPixelY ∘ toPixelY` are the identity, and
the rate axis is inverted (a larger rate maps to a smaller y pixel). -/
theorem claim_C7_mapper_invertibility (dom : Domain) (cs : ChartSize)
    (hx : dom.x.1 < dom.x.2) (hy : dom.y.1 < dom.y.2)
    (hw : 0 < innerWidth cs) (hh : 0 < innerHeight cs) :
    (∀ p : ℚ, fromPixelX dom (innerWidth cs)
        (toPixelX dom (innerWidth cs) p) = p) ∧
    (∀ r : ℚ, fromPixelY dom (innerHeight cs)
        (toPixelY dom (innerHeight cs) r) = r) ∧
    (∀ r1 r2 : ℚ, r1 < r2 →
        toPixelY dom (innerHeight cs) r2 < toPixelY dom (innerHeight cs) r1) := by
  have hxd : dom.x.2 - dom.x.1 ≠ 0 := sub_ne_zero.mpr (ne_of_gt hx)
  have hyd : dom.y.2 - dom.y.1 ≠ 0 := sub_ne_zero.mpr (ne_of_gt hy)
  have hw0 : innerWidth cs - 0 ≠ 0 := by simpa using ne_of_gt hw
  have hh0 : (0 : ℚ) - innerHeight cs ≠ 0 := by
    intro hc
    nlinarith [hh]
  refine ⟨?_, ?_, ?_⟩
  · intro p
    simp only [fromPixelX, toPixelX, scaleLinearApply, scaleLinearInvert,
      d3Lerp, d3Normalize, if_neg hxd, if_neg hw0]
    field_simp
    ring
  · intro r
    simp only [fromPixelY, toPixelY, scaleLinearApply, scaleLinearInvert,
      d3Lerp, d3Normalize, if_neg hyd, if_neg hh0]
    field_simp
    ring
  · intro r1 r2 hr
    simp only [toPixelY, scaleLinearApply, d3Lerp, d3Normalize, if_neg hyd]
    have hDpos : 0 < dom.y.2 - dom.y.1 := sub_pos.mpr hy
    have ht : (r1 - dom.y.1) / (dom.y.2 - dom.y.1)
        < (r2 - dom.y.1) / (dom.y.2 - dom.y.1) := by
      exact (div_lt_div_iff_of_pos_right hDpos).mpr (by linarith)
    nlinarith [mul_pos hh (sub_pos.mpr ht)]

/-- Witness for claim C7 at domain x ∈ [0, 1], y ∈ [0, 5] and a 180×180
surface, showing the round trip at principal 1/3 and the y inversion at
rates 2 < 3. -/
theorem claim_C7_mapper_invertibility_witness :
    fromPixelX ⟨(0, 1), (0, 5)⟩ (innerWidth ⟨180, 180⟩)
        (toPixelX ⟨(0, 1), (0, 5)⟩ (innerWidth ⟨180, 180⟩) (1 / 3)) = 1 / 3 ∧
    toPixelY ⟨(0, 1), (0, 5)⟩ (innerHeight ⟨180, 180⟩) 3
      < toPixelY ⟨(0, 1), (0, 5)⟩ (innerHeight ⟨180, 180⟩) 2 :=
  ⟨(claim_C7_mapper_invertibility ⟨(0, 1), (0, 5)⟩ ⟨180, 180⟩ (by norm_num)
      (by norm_num) (by norm_num [innerWidth]) (by norm_num [innerHeight])).1 (1 / 3),
   (claim_C7_mapper_invertibility ⟨(0, 1), (0, 5)⟩ ⟨180, 180⟩ (by norm_num)
      (by norm_num) (by norm_num [innerWidth]) (by norm_num [innerHeight])).2.2
     2 3 (by norm_num)⟩

/-! Helper lemmas about the age color scale's min/max timestamps. -/

theorem minTimestampOf_le_mem (data : List LoanOffer) (o : LoanOffer) (ho : o ∈ data) :
    minTimestampOf data ≤ o.timestamp.getD 0 := by
  have hmem : o.timestamp.getD 0 ∈ offerTimestamps data :=
    List.mem_map_of_mem _ ho
  rcases hts : offerTimestamps data with _ | ⟨t, ts⟩
  · rw [hts] at hmem
    cases hmem
  · rw [hts] at hmem
    simp only [minTimestampOf, hts]
    rcases List.mem_cons.mp hmem with h | h
    · rw [h]
      exact foldr_min_le_init ts t
    · exact foldr_min_le_mem ts t _ h

theorem mem_le_maxTimestampOf (data : List LoanOffer) (o : LoanOffer) (ho : o ∈ data) :
    o.timestamp.getD 0 ≤ maxTimestampOf data := by
  have hmem : o.timestamp.getD 0 ∈ offerTimestamps data :=
    List.mem_map_of_mem _ ho
  rcases hts : offerTimestamps data with _ | ⟨t, ts⟩
  · rw [hts] at hmem
    cases hmem
  · rw [hts] at hmem
    simp only [maxTimestampOf, hts]
    rcases List.mem_cons.mp hmem with h | h
    · rw [h]
      exact init_le_foldr_max ts t
    · exact mem_le_foldr_max ts t _ h

theorem foldr_min_const (l : List ℚ) (c : ℚ) (h : ∀ x ∈ l, x = c) :
    l.foldr min c = c := by
  induction l with
  | nil => rfl
  | cons y ys ih =>
      have hy : y = c := h y (List.mem_cons_self y ys)
      have hih : ys.foldr min c = c := ih fun x hx => h x (List.mem_cons_of_mem y hx)
      simp [hy, hih]

theorem foldr_max_const (l : List ℚ) (c : ℚ) (h : ∀ x ∈ l, x = c) :
    l.foldr max c = c := by
  induction l with
  | nil => rfl
  | cons y ys ih =>
      have hy : y = c := h y (List.mem_cons_self y ys)
      have hih : ys.foldr max c = c := ih fun x hx => h x (List.mem_cons_of_mem y hx)
      simp [hy, hih]

/-- Claim C6 counterexample: two offers that both carry timestamp 100; the
interpolation parameter of the age color scale at their common timestamp
is 1/2 — not 1, the upper ("newest") endpoint the claim asserts. -/
theorem claim_C6_counterexample :
    (∀ o ∈ ([⟨some "a", 1, 5, none, some 100⟩,
             ⟨some "b", 3, 7, none, some 100⟩] : List LoanOffer),
        o.timestamp.getD 0 = 100) ∧
    timeParam [⟨some "a", 1, 5, none, some 100⟩,
               ⟨some "b", 3, 7, none, some 100⟩] 100 = 1 / 2 ∧
    (1 / 2 : ℚ) ≠ 1 := by
  refine ⟨?_, ?_, by norm_num⟩
  · intro o ho
    rcases List.mem_cons.mp ho with h | h
    · subst h
      rfl
    · rcases List.mem_cons.mp h with h2 | h2
      · subst h2
        rfl
      · cases h2
  · norm_num [timeParam, minTimestampOf, maxTimestampOf, offerTimestamps,
      d3Normalize]

/-- Claim C6 (amended): when every offer in the set has the same
ageTimestamp the interpolation parameter degenerates to the d3 midpoint
1/2 for all of them (a half blend of the oldest and newest colors, not
the newest endpoint); and the interpolation parameter is monotone in the
timestamp, so strictly increasing timestamps give a non-decreasing
parameter. -/
theorem claim_C6_age_color (data : List LoanOffer) :
    (∀ t : ℚ, (∀ o ∈ data, o.timestamp.getD 0 = t) →
        ∀ o ∈ data, timeParam data (o.timestamp.getD 0) = 1 / 2) ∧
    (∀ o1 o2 : LoanOffer, o1 ∈ data → o2 ∈ data →
        o1.timestamp.getD 0 ≤ o2.timestamp.getD 0 →
        timeParam data (o1.timestamp.getD 0) ≤ timeParam data (o2.timestamp.getD 0)) := by
  constructor
  · intro t hall o ho
    have hmap : ∀ x ∈ offerTimestamps data, x = t := by
      intro x hx
      rcases List.mem_map.mp hx with ⟨o2, ho2, rfl⟩
      exact hall o2 ho2
    have hmin : minTimestampOf data = t := by
      rcases hts : offerTimestamps data with _ | ⟨u, us⟩
      · have hmem : o.timestamp.getD 0 ∈ offerTimestamps data :=
          List.mem_map_of_mem _ ho
        rw [hts] at hmem
        cases hmem
      · have hu : u = t := hmap u (by rw [hts]; exact List.mem_cons_self u us)
        have hus : ∀ x ∈ us, x = t := fun x hx =>
          hmap x (by rw [hts]; exact List.mem_cons_of_mem u hx)
        simp only [minTimestampOf, hts, hu]
        exact foldr_min_const us t hus
    have hmax : maxTimestampOf data = t := by
      rcases hts : offerTimestamps data with _ | ⟨u, us⟩
      · have hmem : o.timestamp.getD 0 ∈ offerTimestamps data :=
          List.mem_map_of_mem _ ho
        rw [hts] at hmem
        cases hmem
      · have hu : u = t := hmap u (by rw [hts]; exact List.mem_cons_self u us)
        have hus : ∀ x ∈ us, x = t := fun x hx =>
          hmap x (by rw [hts]; exact List.mem_cons_of_mem u hx)
        simp only [maxTimestampOf, hts, hu]
        exact foldr_max_const us t hus
    simp [timeParam, hmin, hmax, d3Normalize]
  · intro o1 o2 ho1 ho2 hts
    unfold timeParam d3Normalize
    split_ifs with hdeg
    · exact le_refl _
    · have hlo : minTimestampOf data ≤ o1.timestamp.getD 0 :=
        minTimestampOf_le_mem data o1 ho1
      have hhi : o1.timestamp.getD 0 ≤ maxTimestampOf data :=
        mem_le_maxTimestampOf data o1 ho1
      have hD : 0 < maxTimestampOf data - minTimestampOf data :=
        lt_of_le_of_ne (by linarith) (Ne.symm hdeg)
      exact (div_le_div_iff_of_pos_right hD).mpr (by linarith)

/-- Witness for claim C6: the degenerate case at two offers with timestamp
100, and monotonicity at timestamps 100 ≤ 200. -/
theorem claim_C6_age_color_witness :
    timeParam [⟨some "a", 1, 5, none, some 100⟩,
               ⟨some "b", 3, 7, none, some 100⟩] 100 = 1 / 2 ∧
    timeParam [⟨some "a", 1, 5, none, some 100⟩,
               ⟨some "b", 3, 7, none, some 200⟩] 100
      ≤ timeParam [⟨some "a", 1, 5, none, some 100⟩,
                   ⟨some "b", 3, 7, none, some 200⟩] 200 :=
  ⟨(claim_C6_age_color _).1 100
      (by
        intro o ho
        rcases List.mem_cons.mp ho with h | h
        · subst h
          rfl
        · rcases List.mem_cons.mp h with h2 | h2
          · subst h2
            rfl
          · cases h2)
      ⟨some "a", 1, 5, none, some 100⟩ (List.mem_cons_self _ _),
   (claim_C6_age_color _).2
      ⟨some "a", 1, 5, none, some 100⟩ ⟨some "b", 3, 7, none, some 200⟩
      (List.mem_cons_self _ _)
      (List.mem_cons_of_mem _ (List.mem_cons_self _ _))
      (by norm_num)⟩

/-! Helper lemmas for the expansion step. -/

theorem fixRange_floor (lo hi floor : ℚ) :
    floor ≤ (fixRange lo hi floor).2 - (fixRange lo hi floor).1 := by
  unfold fixRange
  split_ifs with h
  · dsimp only
    linarith
  · dsimp only
    linarith

theorem fixRange_of_ge (lo hi floor : ℚ) (h : floor ≤ hi - lo) :
    fixRange lo hi floor = (lo, hi) := by
  unfold fixRange
  rw [if_neg (not_lt.mpr h)]

theorem xIncrementOf_nonneg (prev : Domain) (pos : DragPos)
    (hx : prev.x.1 ≤ prev.x.2) (hw : 0 < pos.width) :
    0 ≤ xIncrementOf prev pos := by
  unfold xIncrementOf PIXEL_INCREMENT
  rw [if_neg (ne_of_gt hw), mul_one]
  exact div_nonneg (by linarith) hw.le

theorem yIncrementOf_nonneg (prev : Domain) (pos : DragPos)
    (hy : prev.y.1 ≤ prev.y.2) (hh : 0 < pos.height) :
    0 ≤ yIncrementOf prev pos := by
  unfold yIncrementOf PIXEL_INCREMENT
  rw [if_neg (ne_of_gt hh), mul_one]
  exact div_nonneg (by linarith) hh.le

theorem xMin1Of_le (prev : Domain) (pos : DragPos)
    (hx0 : 0 ≤ prev.x.1) (hinc : 0 ≤ xIncrementOf prev pos) :
    xMin1Of prev pos ≤ prev.x.1 := by
  unfold xMin1Of
  split_ifs
  · exact max_le hx0 (by linarith)
  · exact le_refl _

theorem xMin1Of_nonneg (prev : Domain) (pos : DragPos) (hx0 : 0 ≤ prev.x.1) :
    0 ≤ xMin1Of prev pos := by
  unfold xMin1Of
  split_ifs
  · exact le_max_left _ _
  · exact hx0

theorem le_xMax1Of (prev : Domain) (pos : DragPos) (hinc : 0 ≤ xIncrementOf prev pos) :
    prev.x.2 ≤ xMax1Of prev pos := by
  unfold xMax1Of
  split_ifs
  · linarith
  · exact le_refl _

theorem yMin1Of_le (prev : Domain) (pos : DragPos)
    (hy0 : 0 ≤ prev.y.1) (hinc : 0 ≤ yIncrementOf prev pos) :
    yMin1Of prev pos ≤ prev.y.1 := by
  unfold yMin1Of
  split_ifs
  · exact max_le hy0 (by linarith)
  · exact le_refl _

theorem yMin1Of_nonneg (prev : Domain) (pos : DragPos) (hy0 : 0 ≤ prev.y.1) :
    0 ≤ yMin1Of prev pos := by
  unfold yMin1Of
  split_ifs
  · exact le_max_left _ _
  · exact hy0

theorem le_yMax1Of (prev : Domain) (pos : DragPos) (hinc : 0 ≤ yIncrementOf prev pos) :
    prev.y.2 ≤ yMax1Of prev pos := by
  unfold yMax1Of
  split_ifs
  · linarith
  · exact le_refl _

/-- Claim C4: one auto-expansion step never leaves either axis with a
range below the 0.1 floor fraction of its pre-step span, and the
post-step ranges stay non-negative, so the floor holds along every
sequence of expansion steps. -/
theorem claim_C4_expansion_floor (prev : Domain) (pos : DragPos)
    (hx : prev.x.1 ≤ prev.x.2) (hy : prev.y.1 ≤ prev.y.2) :
    (prev.x.2 - prev.x.1) * (1 / 10)
        ≤ (checkAndExpandDomain prev pos).x.2 - (checkAndExpandDomain prev pos).x.1 ∧
    (prev.y.2 - prev.y.1) * (1 / 10)
        ≤ (checkAndExpandDomain prev pos).y.2 - (checkAndExpandDomain prev pos).y.1 ∧
    0 ≤ (checkAndExpandDomain prev pos).x.2 - (checkAndExpandDomain prev pos).x.1 ∧
    0 ≤ (checkAndExpandDomain prev pos).y.2 - (checkAndExpandDomain prev pos).y.1 := by
  unfold checkAndExpandDomain
  split_ifs with hc
  · refine ⟨fixRange_floor _ _ _, fixRange_floor _ _ _, ?_, ?_⟩
    · have := fixRange_floor (xMin1Of prev pos) (xMax1Of prev pos)
        ((prev.x.2 - prev.x.1) * (1 / 10))
      nlinarith
    · have := fixRange_floor (yMin1Of prev pos) (yMax1Of prev pos)
        ((prev.y.2 - prev.y.1) * (1 / 10))
      nlinarith
  · exact ⟨by linarith, by linarith, by linarith, by linarith⟩

/-- Witness for claim C4: domain x ∈ [0, 1], y ∈ [0, 5], dragging at the
right edge of a 100×100 plot. -/
theorem claim_C4_expansion_floor_witness :
    ((1 : ℚ) - 0) * (1 / 10)
        ≤ (checkAndExpandDomain ⟨(0, 1), (0, 5)⟩ ⟨100, 50, 100, 100⟩).x.2
          - (checkAndExpandDomain ⟨(0, 1), (0, 5)⟩ ⟨100, 50, 100, 100⟩).x.1 ∧
    ((5 : ℚ) - 0) * (1 / 10)
        ≤ (checkAndExpandDomain ⟨(0, 1), (0, 5)⟩ ⟨100, 50, 100, 100⟩).y.2
          - (checkAndExpandDomain ⟨(0, 1), (0, 5)⟩ ⟨100, 50, 100, 100⟩).y.1 := by
  have h := claim_C4_expansion_floor ⟨(0, 1), (0, 5)⟩ ⟨100, 50, 100, 100⟩
    (by norm_num) (by norm_num)
  exact ⟨h.1, h.2.1⟩

/-- Invariant of the Domain data model: lower bounds non-negative and
min ≤ max on both axes. -/
def domainInvariant (d : Domain) : Prop :=
  0 ≤ d.x.1 ∧ d.x.1 ≤ d.x.2 ∧ 0 ≤ d.y.1 ∧ d.y.1 ≤ d.y.2

/-- Claim C8 counterexample: from the invariant-satisfying domain
x ∈ [0, 1], y ∈ [0, 5], one expansion step with stored plot width −1
(the chart stores `clientWidth − 80`, negative for a client box narrower
than the margins) and pointer x = 0 makes the right-edge test fire with
xIncrement = 1/(−1) = −1, collapsing x to [0, 0]; the minimum-range
maintenance then re-centers it to [−1/20, 1/20] without re-clamping at 0,
so the program constructs a domain with a negative lower bound and the
unconditional claim is false. -/
theorem claim_C8_counterexample :
    domainInvariant ⟨(0, 1), (0, 5)⟩ ∧
    checkAndExpandDomain ⟨(0, 1), (0, 5)⟩ ⟨0, 50, -1, 100⟩
      = ⟨(-(1 / 20), 1 / 20), (0, 5)⟩ ∧
    ¬ domainInvariant (checkAndExpandDomain ⟨(0, 1), (0, 5)⟩ ⟨0, 50, -1, 100⟩) := by
  have hstep : checkAndExpandDomain ⟨(0, 1), (0, 5)⟩ ⟨0, 50, -1, 100⟩
      = ⟨(-(1 / 20), 1 / 20), (0, 5)⟩ := by
    norm_num [checkAndExpandDomain, edgeRight, edgeLeft, edgeTop, edgeBottom,
      xMax1Of, xMin1Of, yMax1Of, yMin1Of, xIncrementOf, yIncrementOf, fixRange,
      PIXEL_INCREMENT, EDGE_THRESHOLD]
  refine ⟨by norm_num [domainInvariant], hstep, ?_⟩
  rw [hstep]
  norm_num [domainInvariant]

/-- Claim C8 (amended): the initial domain computed from offers with
non-negative principals and rates (and a non-negative user offer)
satisfies the Domain invariant, and an auto-expansion step whose stored
plot width and height are positive preserves it: lower bounds are clamped
at 0 and no min ever exceeds its max. (A step with a negative stored plot
width can drive a lower bound negative, see the counterexample.) -/
theorem claim_C8_domain_invariant :
    (∀ (offers : List LoanOffer) (u : Option (ℚ × ℚ)),
        (∀ o ∈ offers, 0 ≤ o.loanAmount ∧ 0 ≤ o.interestRate) →
        (∀ p, u = some p → 0 ≤ p.1 ∧ 0 ≤ p.2) →
        domainInvariant (getInitialDomain offers u)) ∧
    (∀ (dom : Domain) (pos : DragPos), domainInvariant dom →
        0 < pos.width → 0 < pos.height →
        domainInvariant (checkAndExpandDomain dom pos)) := by
  constructor
  · intro offers u hoff hu
    have huL : 0 ≤ (u.map Prod.fst).getD 0 := by
      cases u with
      | none => norm_num
      | some p => simpa using (hu p rfl).1
    have huR : 0 ≤ (u.map Prod.snd).getD 0 := by
      cases u with
      | none => norm_num
      | some p => simpa using (hu p rfl).2
    have hLmem : ∀ x ∈ offers.map LoanOffer.loanAmount, (0 : ℚ) ≤ x := by
      intro x hx
      rcases List.mem_map.mp hx with ⟨o, ho, rfl⟩
      exact (hoff o ho).1
    have hRmem : ∀ x ∈ offers.map LoanOffer.interestRate, (0 : ℚ) ≤ x := by
      intro x hx
      rcases List.mem_map.mp hx with ⟨o, ho, rfl⟩
      exact (hoff o ho).2
    have hminL : 0 ≤ (offers.map LoanOffer.loanAmount).foldr min ((u.map Prod.fst).getD 0) :=
      le_foldr_min _ _ _ hLmem huL
    have hmmL : (offers.map LoanOffer.loanAmount).foldr min ((u.map Prod.fst).getD 0)
        ≤ (offers.map LoanOffer.loanAmount).foldr max ((u.map Prod.fst).getD 0) :=
      foldr_min_le_foldr_max _ _
    have hminR : 0 ≤ (offers.map LoanOffer.interestRate).foldr min ((u.map Prod.snd).getD 0) :=
      le_foldr_min _ _ _ hRmem huR
    have hmmR : (offers.map LoanOffer.interestRate).foldr min ((u.map Prod.snd).getD 0)
        ≤ (offers.map LoanOffer.interestRate).foldr max ((u.map Prod.snd).getD 0) :=
      foldr_min_le_foldr_max _ _
    have hpadL : (1 : ℚ) / 10 ≤ max ((offers.map LoanOffer.loanAmount).foldr max
        ((u.map Prod.fst).getD 0) - (offers.map LoanOffer.loanAmount).foldr min
        ((u.map Prod.fst).getD 0)) (1 / 10) := le_max_right _ _
    simp only [getInitialDomain, domainInvariant]
    split_ifs with h0 heq
    · norm_num
    · refine ⟨le_max_left _ _, max_le ?_ ?_, le_max_left _ _, max_le ?_ ?_⟩ <;>
        dsimp only <;> linarith [le_max_right ((offers.map LoanOffer.interestRate).foldr max
          ((u.map Prod.snd).getD 0) + 1 - ((offers.map LoanOffer.interestRate).foldr min
          ((u.map Prod.snd).getD 0) - 1)) (2 : ℚ)]
    · refine ⟨le_max_left _ _, max_le ?_ ?_, le_max_left _ _, max_le ?_ ?_⟩ <;>
        dsimp only <;> linarith [le_max_right ((offers.map LoanOffer.interestRate).foldr max
          ((u.map Prod.snd).getD 0) - (offers.map LoanOffer.interestRate).foldr min
          ((u.map Prod.snd).getD 0)) (2 : ℚ)]
  · intro dom pos hinv hw hh
    obtain ⟨hx0, hxle, hy0, hyle⟩ := hinv
    have hxI : 0 ≤ xIncrementOf dom pos := xIncrementOf_nonneg dom pos hxle hw
    have hyI : 0 ≤ yIncrementOf dom pos := yIncrementOf_nonneg dom pos hyle hh
    have hxa : xMin1Of dom pos ≤ dom.x.1 := xMin1Of_le dom pos hx0 hxI
    have hxb : 0 ≤ xMin1Of dom pos := xMin1Of_nonneg dom pos hx0
    have hxc : dom.x.2 ≤ xMax1Of dom pos := le_xMax1Of dom pos hxI
    have hya : yMin1Of dom pos ≤ dom.y.1 := yMin1Of_le dom pos hy0 hyI
    have hyb : 0 ≤ yMin1Of dom pos := yMin1Of_nonneg dom pos hy0
    have hyc : dom.y.2 ≤ yMax1Of dom pos := le_yMax1Of dom pos hyI
    unfold checkAndExpandDomain
    split_ifs with hc
    · rw [fixRange_of_ge _ _ _ (by linarith), fixRange_of_ge _ _ _ (by linarith)]
      exact ⟨hxb, by linarith, hyb, by linarith⟩
    · exact ⟨hx0, hxle, hy0, hyle⟩

/-- Witness for claim C8: one offer (1, 5) with a user offer (2, 3), and an
expansion step at the right edge of a 100×100 plot from domain
x ∈ [0, 1], y ∈ [0, 5]. -/
theorem claim_C8_domain_invariant_witness :
    domainInvariant (getInitialDomain [⟨some "a", 1, 5, none, none⟩] (some (2, 3))) ∧
    domainInvariant (checkAndExpandDomain ⟨(0, 1), (0, 5)⟩ ⟨100, 50, 100, 100⟩) :=
  ⟨claim_C8_domain_invariant.1 [⟨some "a", 1, 5, none, none⟩] (some (2, 3))
      (by intro o ho
          rcases List.mem_cons.mp ho with h | h
          · subst h
            constructor <;> norm_num
          · cases h)
      (by intro p hp
          cases hp
          constructor <;> norm_num),
   claim_C8_domain_invariant.2 ⟨(0, 1), (0, 5)⟩ ⟨100, 50, 100, 100⟩
      (by refine ⟨?_, ?_, ?_, ?_⟩ <;> norm_num) (by norm_num) (by norm_num)⟩

end OfferAnalysis
